import Mathlib

/-!
BuildMonitor: the fix-coordination server, the overview table and the
aggregation cycle.

A shallow embedding of `Server` (src/BuildMonitorServer/Server.cpp), of
`ServerOverviewTable` (src/BuildMonitor/ServerOverviewTable.cpp) and of one
aggregation cycle of `JenkinsCommunication` (declared in
src/BuildMonitor/JenkinsCommunication.h), with the properties proved about
them.

`std::vector` is a `List`, an iterator is the index of its element (`end()` is
the length of the vector), `QString` is `String`, and a Qt signal is a log of
the payloads emitted so far.
-/

namespace BuildMonitor

/-! ## Server.cpp -/

/-- Modelled from the spec: the claim record `FixInfo` (the FixClaim of §3);
Server.h, which declares it, is not among the sources. Server.cpp reads its
`projectName` and `buildNumber`. `buildNumber` is a `qint32`; it is only ever
compared, so it is kept as an integer. -/
structure FixInfo where
  projectName : String
  volunteer : String
  buildNumber : Int
  deriving DecidableEq, Repr

/-- The part of `Server` the slots read and write: the vector `fixInfos`, and
the payloads the signal `fixInfoChanged` has carried so far, oldest first. -/
structure Server where
  fixInfos : List FixInfo
  fixInfoChanged : List (List FixInfo)
  deriving DecidableEq, Repr

/-- The server right after construction: no claim, nothing emitted. -/
def Server.init : Server := ⟨[], []⟩

/-- The index `std::find_if` stops at: that of the first element satisfying
`pred`, or the length of the vector (`end()`) when there is none. -/
def find_if (pred : FixInfo → Bool) : List FixInfo → Nat
  | [] => 0
  | info :: rest => if pred info then 0 else find_if pred rest + 1

/-- The statement `emit fixInfoChanged(fixInfos)`. -/
def Server.emitFixInfoChanged (s : Server) : Server :=
  { s with fixInfoChanged := s.fixInfoChanged ++ [s.fixInfos] }

/-- The slot `Server::onFixStarted`. -/
def Server.onFixStarted (s : Server) (fixInfo : FixInfo) : Server :=
  let foundElement :=
    find_if (fun info => info.projectName == fixInfo.projectName) s.fixInfos
  let s1 : Server :=
    if foundElement ≠ s.fixInfos.length then
      { s with fixInfos := s.fixInfos.set foundElement fixInfo }
    else
      { s with fixInfos := s.fixInfos ++ [fixInfo] }
  s1.emitFixInfoChanged

/-- The slot `Server::onMarkFixed`. -/
def Server.onMarkFixed (s : Server) (projectName : String) (buildNumber : Int) : Server :=
  let foundElement :=
    find_if (fun info => info.projectName == projectName && decide (info.buildNumber < buildNumber))
      s.fixInfos
  let s1 : Server :=
    if foundElement ≠ s.fixInfos.length then
      { s with fixInfos := s.fixInfos.eraseIdx foundElement }
    else
      s
  s1.emitFixInfoChanged

/-- The inner loop of `Server::getProjectsState`: walk `projects`, push `info`
at the first name equal to its project name and leave the loop. -/
def getProjectsState.inner (info : FixInfo) (result : List FixInfo) :
    List String → List FixInfo
  | [] => result
  | projectName :: rest =>
    if info.projectName == projectName then result ++ [info]
    else getProjectsState.inner info result rest

/-- The method `Server::getProjectsState`: the vector it returns and the server
it leaves behind. -/
def Server.getProjectsState (s : Server) (projects : List String) : List FixInfo × Server :=
  (s.fixInfos.foldl (fun result info => getProjectsState.inner info result projects) [], s)

/-- A call the server can receive. -/
inductive Call where
  | fixStarted (fixInfo : FixInfo)
  | markFixed (projectName : String) (buildNumber : Int)
  | projectsState (projects : List String)
  deriving DecidableEq, Repr

/-- The server after one call. -/
def Server.call (s : Server) : Call → Server
  | .fixStarted fixInfo => s.onFixStarted fixInfo
  | .markFixed projectName buildNumber => s.onMarkFixed projectName buildNumber
  | .projectsState projects => (s.getProjectsState projects).2

/-- The server after a sequence of calls, in the order the lock serialises them. -/
def Server.run (s : Server) (calls : List Call) : Server :=
  calls.foldl Server.call s

/-- The project names of a claim list, in order. -/
def projectNames (fixInfos : List FixInfo) : List String :=
  fixInfos.map FixInfo.projectName

/-! ## ServerOverviewTable.cpp -/

/-- Modelled from the spec: the status classification of a snapshot (§3);
ProjectInformation.h is not among the sources. -/
inductive EProjectStatus where
  | success | unstable | failure | disabled | unknown
  deriving DecidableEq, Repr

/-- Modelled from the spec: the fields of a project snapshot (§3), under the
names ServerOverviewTable.cpp reads them by; ProjectInformation.h is not among
the sources. Times are integers of milliseconds. -/
structure ProjectInformation where
  projectName : String
  status : EProjectStatus
  isBuilding : Bool
  buildNumber : Int
  estimatedRemainingTime : Int
  inProgressFor : Int
  lastSuccessfulBuildTime : Int
  volunteer : String
  initiatedBy : List String
  deriving DecidableEq, Repr

/-- What the table calls and the sources do not define: `projectStatus_toString`
and `projectStatus_isFailure` of ProjectInformation.h, and the rendering
`QDateTime::toLocalTime().toString("hh:mm dd-MM-yyyy")` of a time in
milliseconds since the epoch. -/
structure Platform where
  projectStatus_toString : EProjectStatus → String
  projectStatus_isFailure : EProjectStatus → Bool
  localTimeText : Int → String

/-- An icon is known by its name only. -/
abbrev QIcon := String

/-- What the table keeps of a `QTableWidgetItem`. -/
structure QTableWidgetItem where
  text : String
  icon : Option QIcon
  toolTip : String
  deriving DecidableEq, Repr

/-- The item `new QTableWidgetItem(text)`. -/
def QTableWidgetItem.ofText (text : String) : QTableWidgetItem := ⟨text, none, ""⟩

/-- The value a 64-bit or 32-bit integer has once stored in a `qint32`. -/
def toInt32 (x : Int) : Int := (x + 2147483648) % 4294967296 - 2147483648

/-- The labels the constructor pushes into `headerLabels`; nothing changes them
afterwards. -/
def headerLabels : List String :=
  ["Status", "Project", "Remaining Time", "Duration", "Last Successful Build",
    "Volunteer", "Initiated By"]

/-- The state of a `ServerOverviewTable`: the four icon pointers (`none` is
`nullptr`), the snapshot list last shown, the item pool, and the grid of the
widget. A cell of the grid is the pool item put there, or `none` where the
index computed for it lies outside the pool. -/
structure ServerOverviewTable where
  succeeded : Option QIcon
  succeededBuilding : Option QIcon
  failed : Option QIcon
  failedBuilding : Option QIcon
  projectInformation : Option (List ProjectInformation)
  itemPool : List QTableWidgetItem
  rowCount : Nat
  cells : List (List (Option QTableWidgetItem))
  deriving DecidableEq, Repr

/-- The table right after construction. -/
def ServerOverviewTable.init : ServerOverviewTable :=
  ⟨none, none, none, none, none, [], 0, []⟩

/-- The method `ServerOverviewTable::setIcons`. -/
def ServerOverviewTable.setIcons (t : ServerOverviewTable)
    (inSucceeded inSucceededBuilding inFailed inFailedBuilding : Option QIcon) :
    ServerOverviewTable :=
  { t with succeeded := inSucceeded, succeededBuilding := inSucceededBuilding,
           failed := inFailed, failedBuilding := inFailedBuilding }

/-- The status item of one snapshot (lines 75 to 99). -/
def ServerOverviewTable.statusItem (t : ServerOverviewTable) (q : Platform)
    (info : ProjectInformation) : QTableWidgetItem :=
  let statusItem : QTableWidgetItem := ⟨q.projectStatus_toString info.status, none, ""⟩
  if q.projectStatus_isFailure info.status then
    if info.isBuilding && t.failedBuilding.isSome then
      { statusItem with icon := t.failedBuilding }
    else if !info.isBuilding && t.failed.isSome then
      { statusItem with icon := t.failed }
    else statusItem
  else
    if info.isBuilding && t.succeededBuilding.isSome then
      { statusItem with icon := t.succeededBuilding }
    else if !info.isBuilding && t.succeeded.isSome then
      { statusItem with icon := t.succeeded }
    else statusItem

/-- The text of the Remaining Time item of one snapshot (lines 103 to 134).
The division by 1000 is done in the type of the field and its result stored in
a `qint32`; `abs` is applied to a value that is never the least `qint32`. -/
def remainingTimeText (info : ProjectInformation) : String :=
  if info.isBuilding then
    let estimatedRemainingTime : Int := toInt32 (Int.tdiv info.estimatedRemainingTime 1000)
    let unitAndTime : String × Int :=
      if estimatedRemainingTime < 60 ∧ estimatedRemainingTime > -60 then
        ("second(s)", estimatedRemainingTime)
      else
        ("minute(s)", Int.tdiv estimatedRemainingTime 60)
    let timeUnit := unitAndTime.1
    let estimatedRemainingTime := unitAndTime.2
    if estimatedRemainingTime < 0 then
      let estimatedRemainingTime : Int := Int.natAbs estimatedRemainingTime
      "Taking " ++ toString estimatedRemainingTime ++ " " ++ timeUnit ++ " longer"
    else
      toString estimatedRemainingTime ++ " " ++ timeUnit
  else
    "-"

/-- The text of the Initiated By item of one snapshot (lines 150 to 165). -/
def initiatorsText (initiatedBy : List String) : String :=
  (List.range initiatedBy.length).foldl
    (fun initiators i =>
      let initiators :=
        if i ≠ 0 then
          if i = initiatedBy.length - 1 then initiators ++ " and " else initiators ++ ", "
        else initiators
      initiators ++ initiatedBy.getD i "")
    ""

/-- The items one turn of the loop over the snapshots pushes into `itemPool`,
in the order they are pushed (lines 75 to 167). -/
def ServerOverviewTable.itemsOf (t : ServerOverviewTable) (q : Platform)
    (info : ProjectInformation) : List QTableWidgetItem :=
  [ t.statusItem q info,
    QTableWidgetItem.ofText info.projectName,
    QTableWidgetItem.ofText (remainingTimeText info),
    QTableWidgetItem.ofText
      (toString (Int.tdiv (Int.tdiv info.inProgressFor 60) 1000) ++ " minutes"),
    (if info.lastSuccessfulBuildTime ≠ -1 then
      QTableWidgetItem.ofText (q.localTimeText info.lastSuccessfulBuildTime)
    else
      QTableWidgetItem.ofText "Unavailable"),
    QTableWidgetItem.ofText info.volunteer,
    QTableWidgetItem.ofText (initiatorsText info.initiatedBy) ]

/-- The method `ServerOverviewTable::setProjectInformation`: the pool is
rebuilt from the snapshots, then the grid is filled row by row from
`itemPool[row * numHeaders + column]`, each item with its text as tool tip.
The number of snapshots is taken to fit the `qint32` it is cast to. -/
def ServerOverviewTable.setProjectInformation (t : ServerOverviewTable) (q : Platform)
    (inProjectInformation : List ProjectInformation) : ServerOverviewTable :=
  let itemPool : List QTableWidgetItem :=
    inProjectInformation.foldl (fun pool info => pool ++ t.itemsOf q info) []
  let numProjects := inProjectInformation.length
  let numHeaders := headerLabels.length
  let cells :=
    (List.range numProjects).map fun row =>
      (List.range numHeaders).map fun column =>
        let itemLocationInArray := row * numHeaders + column
        itemPool[itemLocationInArray]?.map fun item =>
          { item with toolTip := item.text }
  { t with projectInformation := some inProjectInformation, itemPool := itemPool,
           rowCount := numProjects, cells := cells }

/-- The item `item(row, column)` of the widget, `none` for a null pointer. -/
def ServerOverviewTable.item (t : ServerOverviewTable) (row column : Nat) :
    Option QTableWidgetItem :=
  match t.cells[row]? with
  | none => none
  | some cellsOfRow => cellsOfRow[column]?.join

/-- The method `ServerOverviewTable::getProjectName`; `none` where it would
read through a null pointer. -/
def ServerOverviewTable.getProjectName (t : ServerOverviewTable) (row : Int) : Option String :=
  if row = -1 then some ""
  else if row < 0 then none
  else (t.item row.toNat 1).map QTableWidgetItem.text

/-! ## JenkinsCommunication: one aggregation cycle

JenkinsCommunication.h declares `refresh`, the reply slots, the two reply
counters and the signal `projectInformationUpdated`; the file that defines
them is not among the sources, so the cycle below follows the specification
(§4.1, §4.2, §5). -/

/-- Modelled from the spec: the RequestTracker of §4.1 (the counters
`jenkinsServerRepliesCount` and `projectRetrievalRepliesCount` of
JenkinsCommunication.h, whose code is missing): `total` units declared,
`completed` of them finished, `fired` once the stage-complete action has run. -/
structure RequestTracker where
  total : Nat
  completed : Nat
  fired : Bool
  deriving DecidableEq, Repr

/-- Modelled from the spec: the stages of a cycle after server discovery (§4.2);
`idle` is the state with no cycle in flight. -/
inductive Stage where
  | idle | detail | backfill
  deriving DecidableEq, Repr

/-- Modelled from the spec: the StatusAggregator of §4.2 and §5 (the members of
JenkinsCommunication.h, whose code is missing): the stage in flight, its
tracker, the slots whose request of that stage has not settled yet
(`projectRetrievalReplies`), the pre-allocated result slots in discovery order
(`projectInformation`), and the payloads `projectInformationUpdated` has
carried so far. -/
structure StatusAggregator where
  stage : Stage
  tracker : RequestTracker
  outstanding : List Nat
  projectInformation : List ProjectInformation
  projectInformationUpdated : List (List ProjectInformation)
  deriving DecidableEq, Repr

/-- Modelled from the spec: the aggregator before any cycle. -/
def StatusAggregator.init : StatusAggregator :=
  ⟨.idle, ⟨0, 0, true⟩, [], [], []⟩

theorem find_if_split (pred : FixInfo → Bool) (xs : List FixInfo) :
    ((∀ x ∈ xs, pred x = false) ∧ find_if pred xs = xs.length) ∨
    ∃ pre c post, xs = pre ++ c :: post ∧ (∀ d ∈ pre, pred d = false) ∧ pred c = true ∧
      find_if pred xs = pre.length := by
  induction xs with
  | nil => left; simp [find_if]
  | cons x xs ih =>
    by_cases hx : pred x = true
    · right
      exact ⟨[], x, xs, by simp, by simp, hx, by simp [find_if, hx]⟩
    · have hx' : pred x = false := by simpa using hx
      rcases ih with ⟨hall, hlen⟩ | ⟨pre, c, post, hxs, hpre, hc, hidx⟩
      · left
        refine ⟨?_, by simp [find_if, hx', hlen]⟩
        intro y hy
        rcases List.mem_cons.mp hy with rfl | hy
        · exact hx'
        · exact hall y hy
      · right
        refine ⟨x :: pre, c, post, by simp [hxs], ?_, hc, by simp [find_if, hx', hidx]⟩
        intro y hy
        rcases List.mem_cons.mp hy with rfl | hy
        · exact hx'
        · exact hpre y hy

theorem find_if_of_none (pred : FixInfo → Bool) (xs : List FixInfo)
    (h : ∀ x ∈ xs, pred x = false) : find_if pred xs = xs.length := by
  induction xs with
  | nil => rfl
  | cons x xs ih =>
    have hx : pred x = false := h x (List.mem_cons_self _ _)
    have := ih (fun y hy => h y (List.mem_cons_of_mem _ hy))
    simp [find_if, hx, this]

theorem find_if_of_first (pred : FixInfo → Bool) (pre : List FixInfo) (c : FixInfo)
    (post : List FixInfo) (hpre : ∀ d ∈ pre, pred d = false) (hc : pred c = true) :
    find_if pred (pre ++ c :: post) = pre.length := by
  induction pre with
  | nil => simp [find_if, hc]
  | cons x pre ih =>
    have hx : pred x = false := hpre x (List.mem_cons_self _ _)
    have := ih (fun y hy => hpre y (List.mem_cons_of_mem _ hy))
    simp [find_if, hx, this]

theorem onFixStarted_absent (s : Server) (f : FixInfo)
    (h : ∀ x ∈ s.fixInfos, x.projectName ≠ f.projectName) :
    (s.onFixStarted f).fixInfos = s.fixInfos ++ [f] := by
  have hidx := find_if_of_none (fun info => info.projectName == f.projectName) s.fixInfos
    (by intro x hx; simpa using h x hx)
  simp [Server.onFixStarted, Server.emitFixInfoChanged, hidx]

theorem onFixStarted_present (s : Server) (f : FixInfo) (pre : List FixInfo) (c : FixInfo)
    (post : List FixInfo) (hs : s.fixInfos = pre ++ c :: post)
    (hpre : ∀ d ∈ pre, d.projectName ≠ f.projectName) (hc : c.projectName = f.projectName) :
    (s.onFixStarted f).fixInfos = pre ++ f :: post := by
  have hidx := find_if_of_first (fun info => info.projectName == f.projectName) pre c post
    (by intro x hx; simpa using hpre x hx) (by simpa using hc)
  simp [Server.onFixStarted, Server.emitFixInfoChanged, hs, hidx]

theorem onMarkFixed_absent (s : Server) (p : String) (b : Int)
    (h : ∀ x ∈ s.fixInfos, ¬ (x.projectName = p ∧ x.buildNumber < b)) :
    (s.onMarkFixed p b).fixInfos = s.fixInfos := by
  have hidx := find_if_of_none
    (fun info => info.projectName == p && decide (info.buildNumber < b)) s.fixInfos
    (by intro x hx; have := h x hx; simp only [Bool.and_eq_false_iff]; by_cases h1 : x.projectName = p <;> simp_all)
  simp [Server.onMarkFixed, Server.emitFixInfoChanged, hidx]

theorem onMarkFixed_present (s : Server) (p : String) (b : Int) (pre : List FixInfo)
    (c : FixInfo) (post : List FixInfo) (hs : s.fixInfos = pre ++ c :: post)
    (hpre : ∀ d ∈ pre, ¬ (d.projectName = p ∧ d.buildNumber < b))
    (hc : c.projectName = p ∧ c.buildNumber < b) :
    (s.onMarkFixed p b).fixInfos = pre ++ post := by
  have hidx := find_if_of_first
    (fun info => info.projectName == p && decide (info.buildNumber < b)) pre c post
    (by intro x hx; have := hpre x hx; simp only [Bool.and_eq_false_iff]; by_cases h1 : x.projectName = p <;> simp_all)
    (by simp [hc.1, hc.2])
  simp [Server.onMarkFixed, Server.emitFixInfoChanged, hs, hidx,
    List.eraseIdx_append_of_length_le (Nat.le_refl pre.length)]

theorem projectNames_split (pre : List FixInfo) (c : FixInfo) (post : List FixInfo)
    (h : (projectNames (pre ++ c :: post)).Nodup) :
    (∀ d ∈ pre, d.projectName ≠ c.projectName) ∧ (∀ d ∈ post, d.projectName ≠ c.projectName) := by
  simp only [projectNames, List.map_append, List.map_cons] at h
  rw [List.nodup_append] at h
  obtain ⟨_, hpost, hdisj⟩ := h
  rw [List.nodup_cons] at hpost
  constructor
  · intro d hd heq
    exact hdisj (List.mem_map_of_mem _ hd) (by rw [heq]; exact List.mem_cons_self _ _)
  · intro d hd heq
    exact hpost.1 (by rw [← heq]; exact List.mem_map_of_mem _ hd)

theorem filter_eq_nil_of_names (p : String) (xs : List FixInfo)
    (h : ∀ d ∈ xs, d.projectName ≠ p) :
    xs.filter (fun c => c.projectName == p) = [] := by
  rw [List.filter_eq_nil_iff]
  intro d hd
  simpa using h d hd

theorem filter_eq_self_of_names (p : String) (xs : List FixInfo)
    (h : ∀ d ∈ xs, d.projectName ≠ p) :
    xs.filter (fun c => c.projectName != p) = xs := by
  rw [List.filter_eq_self]
  intro d hd
  simpa using h d hd

theorem onFixStarted_nodup (s : Server) (f : FixInfo) (h : (projectNames s.fixInfos).Nodup) :
    (projectNames (s.onFixStarted f).fixInfos).Nodup := by
  rcases find_if_split (fun info => info.projectName == f.projectName) s.fixInfos with
    ⟨hall, _⟩ | ⟨pre, c, post, hxs, hpre, hc, _⟩
  · have hne : ∀ x ∈ s.fixInfos, x.projectName ≠ f.projectName := by
      intro x hx; simpa using hall x hx
    rw [onFixStarted_absent s f hne]
    simp only [projectNames, List.map_append, List.map_cons, List.map_nil]
    rw [List.nodup_append]
    refine ⟨h, List.nodup_singleton _, ?_⟩
    intro a ha hb
    rw [List.mem_singleton] at hb
    obtain ⟨x, hx, rfl⟩ := List.mem_map.mp ha
    exact hne x hx hb
  · have hc' : c.projectName = f.projectName := by simpa using hc
    have hpre' : ∀ d ∈ pre, d.projectName ≠ f.projectName := by
      intro x hx; simpa using hpre x hx
    rw [onFixStarted_present s f pre c post hxs hpre' hc']
    rw [hxs] at h
    simpa [projectNames, hc'] using h

theorem onMarkFixed_sublist (s : Server) (p : String) (b : Int) :
    (s.onMarkFixed p b).fixInfos.Sublist s.fixInfos := by
  simp only [Server.onMarkFixed, Server.emitFixInfoChanged]
  split
  · exact List.eraseIdx_sublist _ _
  · exact List.Sublist.refl _

theorem onMarkFixed_nodup (s : Server) (p : String) (b : Int)
    (h : (projectNames s.fixInfos).Nodup) :
    (projectNames (s.onMarkFixed p b).fixInfos).Nodup :=
  List.Nodup.sublist ((onMarkFixed_sublist s p b).map _) h

theorem call_nodup (s : Server) (c : Call) (h : (projectNames s.fixInfos).Nodup) :
    (projectNames (s.call c).fixInfos).Nodup := by
  cases c with
  | fixStarted f => exact onFixStarted_nodup s f h
  | markFixed p b => exact onMarkFixed_nodup s p b h
  | projectsState names => exact h

theorem run_nodup (calls : List Call) (s : Server) (h : (projectNames s.fixInfos).Nodup) :
    (projectNames (s.run calls).fixInfos).Nodup := by
  induction calls generalizing s with
  | nil => exact h
  | cons c calls ih => exact ih (s.call c) (call_nodup s c h)

theorem inner_eq (info : FixInfo) (result : List FixInfo) (projects : List String) :
    getProjectsState.inner info result projects =
      if info.projectName ∈ projects then result ++ [info] else result := by
  induction projects with
  | nil => simp [getProjectsState.inner]
  | cons n ns ih =>
    by_cases hn : info.projectName = n
    · simp [getProjectsState.inner, hn]
    · simp [getProjectsState.inner, hn, ih]

theorem foldl_inner_eq (projects : List String) (xs result : List FixInfo) :
    xs.foldl (fun result info => getProjectsState.inner info result projects) result =
      result ++ xs.filter (fun c => decide (c.projectName ∈ projects)) := by
  induction xs generalizing result with
  | nil => simp
  | cons x xs ih =>
    rw [List.foldl_cons, ih, inner_eq]
    by_cases hx : x.projectName ∈ projects
    · simp [hx]
    · simp [hx]

theorem run_fixStarted_fresh (ms : List FixInfo) (s : Server)
    (h : (projectNames (s.fixInfos ++ ms)).Nodup) :
    (s.run (ms.map Call.fixStarted)).fixInfos = s.fixInfos ++ ms := by
  induction ms generalizing s with
  | nil => simp [Server.run]
  | cons m ms ih =>
    have hsplit := projectNames_split s.fixInfos m ms h
    have hstep : (s.onFixStarted m).fixInfos = s.fixInfos ++ [m] :=
      onFixStarted_absent s m hsplit.1
    have hrun : s.run ((m :: ms).map Call.fixStarted)
        = (s.onFixStarted m).run (ms.map Call.fixStarted) := by
      simp [Server.run, Server.call]
    rw [hrun, ih (s.onFixStarted m) (by rw [hstep]; simpa using h), hstep]
    simp

theorem onFixStarted_emits (s : Server) (f : FixInfo) :
    (s.onFixStarted f).fixInfoChanged = s.fixInfoChanged ++ [(s.onFixStarted f).fixInfos] := by
  simp only [Server.onFixStarted, Server.emitFixInfoChanged]
  split <;> rfl

theorem onMarkFixed_emits (s : Server) (p : String) (b : Int) :
    (s.onMarkFixed p b).fixInfoChanged = s.fixInfoChanged ++ [(s.onMarkFixed p b).fixInfos] := by
  simp only [Server.onMarkFixed, Server.emitFixInfoChanged]
  split <;> rfl

/-- C1. Upsert, last writer wins: when no two claims of the registry share a
project name, after `onFixStarted f` the claims whose project name is that of
`f` are exactly one claim, `f` itself, with its volunteer and build number,
whatever the registry held for the project before. -/
theorem onFixStarted_upsert (s : Server) (f : FixInfo)
    (h : (projectNames s.fixInfos).Nodup) :
    (s.onFixStarted f).fixInfos.filter (fun c => c.projectName == f.projectName) = [f] := by
  rcases find_if_split (fun info => info.projectName == f.projectName) s.fixInfos with
    ⟨hall, _⟩ | ⟨pre, c, post, hxs, hpre, hc, _⟩
  · have hne : ∀ x ∈ s.fixInfos, x.projectName ≠ f.projectName := by
      intro x hx; simpa using hall x hx
    rw [onFixStarted_absent s f hne, List.filter_append,
      filter_eq_nil_of_names f.projectName s.fixInfos hne]
    simp
  · have hc' : c.projectName = f.projectName := by simpa using hc
    have hpre' : ∀ d ∈ pre, d.projectName ≠ f.projectName := by
      intro x hx; simpa using hpre x hx
    rw [hxs] at h
    have hpost : ∀ d ∈ post, d.projectName ≠ f.projectName := by
      intro d hd; rw [← hc']; exact (projectNames_split pre c post h).2 d hd
    rw [onFixStarted_present s f pre c post hxs hpre' hc', List.filter_append,
      filter_eq_nil_of_names f.projectName pre hpre', List.filter_cons,
      filter_eq_nil_of_names f.projectName post hpost]
    simp

/-- Witness of C1: from the empty registry, `onFixStarted (A, bob, 5)` then
`onFixStarted (A, alice, 7)` leaves exactly one claim for A, that of alice
for build 7. -/
theorem onFixStarted_upsert_witness :
    (projectNames (Server.init.onFixStarted ⟨"A", "bob", 5⟩).fixInfos).Nodup ∧
    ((Server.init.onFixStarted ⟨"A", "bob", 5⟩).onFixStarted ⟨"A", "alice", 7⟩).fixInfos.filter
        (fun c => c.projectName == "A") = [⟨"A", "alice", 7⟩] ∧
    ((Server.init.onFixStarted ⟨"A", "bob", 5⟩).onFixStarted ⟨"A", "alice", 7⟩).fixInfos
        = [⟨"A", "alice", 7⟩] :=
  ⟨by decide,
   onFixStarted_upsert (Server.init.onFixStarted ⟨"A", "bob", 5⟩) ⟨"A", "alice", 7⟩ (by decide),
   by decide⟩

/-- C2. Strict build-number rule for clearing: when no two claims of the
registry share a project name, `onMarkFixed p b` removes the claim for `p` if
and only if there is one and its build number is strictly less than `b` (the
registry is then the old one without the claim for `p`); in every other case
the claim list after the call is the list before it. -/
theorem onMarkFixed_strict (s : Server) (p : String) (b : Int)
    (h : (projectNames s.fixInfos).Nodup) :
    ((∃ c ∈ s.fixInfos, c.projectName = p ∧ c.buildNumber < b) →
      (s.onMarkFixed p b).fixInfos = s.fixInfos.filter (fun c => c.projectName != p)) ∧
    (¬ (∃ c ∈ s.fixInfos, c.projectName = p ∧ c.buildNumber < b) →
      (s.onMarkFixed p b).fixInfos = s.fixInfos) ∧
    (((∃ c ∈ s.fixInfos, c.projectName = p) ∧
        ∀ c ∈ (s.onMarkFixed p b).fixInfos, c.projectName ≠ p) ↔
      ∃ c ∈ s.fixInfos, c.projectName = p ∧ c.buildNumber < b) := by
  have hyes : (∃ c ∈ s.fixInfos, c.projectName = p ∧ c.buildNumber < b) →
      (s.onMarkFixed p b).fixInfos = s.fixInfos.filter (fun c => c.projectName != p) := by
    rintro ⟨c0, hc0, hc0p⟩
    rcases find_if_split
        (fun info => info.projectName == p && decide (info.buildNumber < b)) s.fixInfos with
      ⟨hall, _⟩ | ⟨pre, c, post, hxs, hpre, hc, _⟩
    · have := hall c0 hc0
      simp [hc0p.1, hc0p.2] at this
    · have hc' : c.projectName = p ∧ c.buildNumber < b := by simpa using hc
      have hpre' : ∀ d ∈ pre, ¬ (d.projectName = p ∧ d.buildNumber < b) := by
        intro d hd; simpa using hpre d hd
      rw [onMarkFixed_present s p b pre c post hxs hpre' hc', hxs]
      rw [hxs] at h
      have hsp := projectNames_split pre c post h
      rw [hc'.1] at hsp
      rw [List.filter_append, List.filter_cons, filter_eq_self_of_names p pre hsp.1,
        filter_eq_self_of_names p post hsp.2]
      simp [hc'.1]
  have hno : ¬ (∃ c ∈ s.fixInfos, c.projectName = p ∧ c.buildNumber < b) →
      (s.onMarkFixed p b).fixInfos = s.fixInfos := by
    intro hn
    exact onMarkFixed_absent s p b (fun x hx hxp => hn ⟨x, hx, hxp⟩)
  refine ⟨hyes, hno, ?_⟩
  constructor
  · rintro ⟨⟨c, hc, hcp⟩, hgone⟩
    by_contra hn
    rw [hno hn] at hgone
    exact hgone c hc hcp
  · intro hex
    obtain ⟨c, hc, hcp⟩ := hex
    refine ⟨⟨c, hc, hcp.1⟩, ?_⟩
    rw [hyes ⟨c, hc, hcp⟩]
    intro d hd
    simpa using (List.mem_filter.mp hd).2

/-- Witness of C2: after `onFixStarted (A, bob, 5)`, `onMarkFixed (A, 5)`
leaves the claim (A, bob, 5) in place and `onMarkFixed (A, 6)` removes it. -/
theorem onMarkFixed_strict_witness :
    (projectNames (Server.init.onFixStarted ⟨"A", "bob", 5⟩).fixInfos).Nodup ∧
    (((∃ c ∈ (Server.init.onFixStarted ⟨"A", "bob", 5⟩).fixInfos, c.projectName = "A") ∧
        ∀ c ∈ ((Server.init.onFixStarted ⟨"A", "bob", 5⟩).onMarkFixed "A" 6).fixInfos,
          c.projectName ≠ "A") ↔
      ∃ c ∈ (Server.init.onFixStarted ⟨"A", "bob", 5⟩).fixInfos,
        c.projectName = "A" ∧ c.buildNumber < 6) ∧
    ((Server.init.onFixStarted ⟨"A", "bob", 5⟩).onMarkFixed "A" 5).fixInfos
        = [⟨"A", "bob", 5⟩] ∧
    ((Server.init.onFixStarted ⟨"A", "bob", 5⟩).onMarkFixed "A" 6).fixInfos = [] :=
  ⟨by decide,
   (onMarkFixed_strict (Server.init.onFixStarted ⟨"A", "bob", 5⟩) "A" 6 (by decide)).2.2,
   by decide, by decide⟩

/-- C3. Uniqueness invariant: in every registry reached from the empty one by
any finite sequence of calls no two claims have the same project name; each
of `onFixStarted` and `onMarkFixed` preserves that, and `getProjectsState`
leaves the server as it was. -/
theorem projectNames_nodup_invariant :
    (∀ calls : List Call, (projectNames (Server.init.run calls).fixInfos).Nodup) ∧
    (∀ (s : Server) (f : FixInfo), (projectNames s.fixInfos).Nodup →
      (projectNames (s.onFixStarted f).fixInfos).Nodup) ∧
    (∀ (s : Server) (p : String) (b : Int), (projectNames s.fixInfos).Nodup →
      (projectNames (s.onMarkFixed p b).fixInfos).Nodup) ∧
    (∀ (s : Server) (projects : List String), (s.getProjectsState projects).2 = s) :=
  ⟨fun calls => run_nodup calls Server.init (by simp [Server.init, projectNames]),
   onFixStarted_nodup, onMarkFixed_nodup, fun _ _ => rfl⟩

/-- C4. Change notification carries the committed state: each call of
`onFixStarted` and of `onMarkFixed` adds exactly one payload to what
`fixInfoChanged` has carried, and that payload is the claim list the call
leaves in the registry. -/
theorem fixInfoChanged_carries_committed_state (s : Server) (f : FixInfo) (p : String)
    (b : Int) :
    (s.onFixStarted f).fixInfoChanged = s.fixInfoChanged ++ [(s.onFixStarted f).fixInfos] ∧
    (s.onMarkFixed p b).fixInfoChanged = s.fixInfoChanged ++ [(s.onMarkFixed p b).fixInfos] :=
  ⟨onFixStarted_emits s f, onMarkFixed_emits s p b⟩

/-- C5. Read-side query returns exactly the matching subset:
`getProjectsState names` returns the claims of the registry whose project name
occurs in `names`, each once and unchanged, in the order of the registry, and
leaves the server as it was. -/
theorem getProjectsState_eq_filter (s : Server) (names : List String) :
    s.getProjectsState names =
      (s.fixInfos.filter (fun c => decide (c.projectName ∈ names)), s) := by
  simp [Server.getProjectsState, foldl_inner_eq]

/-- C6. Mark-fixed for an unclaimed project is an idempotent observation: when
the registry holds no claim for `p`, `onMarkFixed p b` leaves the claim list as
it was, the one snapshot it emits is that list, and a second such call leaves
the list as it was again. -/
theorem onMarkFixed_unclaimed (s : Server) (p : String) (b : Int)
    (h : ∀ c ∈ s.fixInfos, c.projectName ≠ p) :
    (s.onMarkFixed p b).fixInfos = s.fixInfos ∧
    (s.onMarkFixed p b).fixInfoChanged = s.fixInfoChanged ++ [s.fixInfos] ∧
    ((s.onMarkFixed p b).onMarkFixed p b).fixInfos = s.fixInfos := by
  have h1 : (s.onMarkFixed p b).fixInfos = s.fixInfos :=
    onMarkFixed_absent s p b (fun x hx hxp => h x hx hxp.1)
  have h2 := onMarkFixed_emits s p b
  refine ⟨h1, by rw [h2, h1], ?_⟩
  rw [onMarkFixed_absent (s.onMarkFixed p b) p b (by rw [h1]; exact fun x hx hxp => h x hx hxp.1),
    h1]

/-- Witness of C6: `onMarkFixed (B, 1)` on a registry whose only claim is for A. -/
theorem onMarkFixed_unclaimed_witness :
    (∀ c ∈ (⟨[⟨"A", "bob", 5⟩], []⟩ : Server).fixInfos, c.projectName ≠ "B") ∧
    ((⟨[⟨"A", "bob", 5⟩], []⟩ : Server).onMarkFixed "B" 1).fixInfos = [⟨"A", "bob", 5⟩] ∧
    ((⟨[⟨"A", "bob", 5⟩], []⟩ : Server).onMarkFixed "B" 1).fixInfoChanged
      = [[⟨"A", "bob", 5⟩]] :=
  ⟨by decide,
   (onMarkFixed_unclaimed ⟨[⟨"A", "bob", 5⟩], []⟩ "B" 1 (by decide)).1,
   (onMarkFixed_unclaimed ⟨[⟨"A", "bob", 5⟩], []⟩ "B" 1 (by decide)).2.1⟩

/-- C7. Order independence for distinct projects: for messages with pairwise
distinct project names, applying `onFixStarted` to them from the empty
registry in any order ends with as many claims as messages, the claims being
the messages, each once; any two orders end with the same claims. -/
theorem onFixStarted_order_independent (ms order : List FixInfo)
    (hperm : order.Perm ms) (hnd : (projectNames ms).Nodup) :
    (Server.init.run (order.map Call.fixStarted)).fixInfos.length = ms.length ∧
    (Server.init.run (order.map Call.fixStarted)).fixInfos.Perm ms ∧
    (∀ m ∈ ms, (Server.init.run (order.map Call.fixStarted)).fixInfos.count m = 1) ∧
    ∀ other : List FixInfo, other.Perm ms →
      (Server.init.run (other.map Call.fixStarted)).fixInfos.Perm
        (Server.init.run (order.map Call.fixStarted)).fixInfos := by
  have key : ∀ l : List FixInfo, l.Perm ms →
      (Server.init.run (l.map Call.fixStarted)).fixInfos = l := by
    intro l hl
    have hl' : (projectNames (Server.init.fixInfos ++ l)).Nodup := by
      have : (projectNames l).Perm (projectNames ms) := hl.map _
      simpa [Server.init] using this.nodup_iff.mpr hnd
    simpa [Server.init] using run_fixStarted_fresh l Server.init hl'
  have hms : ms.Nodup := List.Nodup.of_map _ hnd
  rw [key order hperm]
  refine ⟨hperm.length_eq, hperm, ?_, ?_⟩
  · intro m hm
    rw [hperm.count_eq]
    exact List.count_eq_one_of_mem hms hm
  · intro other hother
    rw [key other hother]
    exact hother.trans hperm.symm

/-- Witness of C7: two messages for the projects A and B, applied in the
order B, A. -/
theorem onFixStarted_order_independent_witness :
    ([⟨"B", "alice", 2⟩, ⟨"A", "bob", 5⟩] : List FixInfo).Perm
      [⟨"A", "bob", 5⟩, ⟨"B", "alice", 2⟩] ∧
    (projectNames [⟨"A", "bob", 5⟩, ⟨"B", "alice", 2⟩]).Nodup ∧
    (Server.init.run
      (([⟨"B", "alice", 2⟩, ⟨"A", "bob", 5⟩] : List FixInfo).map Call.fixStarted)).fixInfos.length
      = 2 :=
  ⟨List.Perm.swap _ _ _, by decide,
   (onFixStarted_order_independent [⟨"A", "bob", 5⟩, ⟨"B", "alice", 2⟩]
      [⟨"B", "alice", 2⟩, ⟨"A", "bob", 5⟩] (List.Perm.swap _ _ _) (by decide)).1⟩

/-- C10. Frame of the upsert: `onFixStarted f` leaves the claims for other
projects unchanged and in the same order; if a claim for the project of `f`
existed, `f` stands where the first such claim stood and the number of claims
is unchanged, otherwise `f` is appended at the end and the number of claims
grows by one. -/
theorem onFixStarted_frame (s : Server) (f : FixInfo) :
    (s.onFixStarted f).fixInfos.filter (fun c => c.projectName != f.projectName)
      = s.fixInfos.filter (fun c => c.projectName != f.projectName) ∧
    ((∃ c ∈ s.fixInfos, c.projectName = f.projectName) →
      ∃ pre c post, s.fixInfos = pre ++ c :: post ∧
        (∀ d ∈ pre, d.projectName ≠ f.projectName) ∧ c.projectName = f.projectName ∧
        (s.onFixStarted f).fixInfos = pre ++ f :: post ∧
        (s.onFixStarted f).fixInfos.length = s.fixInfos.length) ∧
    ((∀ c ∈ s.fixInfos, c.projectName ≠ f.projectName) →
      (s.onFixStarted f).fixInfos = s.fixInfos ++ [f] ∧
      (s.onFixStarted f).fixInfos.length = s.fixInfos.length + 1) := by
  rcases find_if_split (fun info => info.projectName == f.projectName) s.fixInfos with
    ⟨hall, _⟩ | ⟨pre, c, post, hxs, hpre, hc, _⟩
  · have hne : ∀ x ∈ s.fixInfos, x.projectName ≠ f.projectName := by
      intro x hx; simpa using hall x hx
    have hres := onFixStarted_absent s f hne
    refine ⟨by rw [hres]; simp [List.filter_append], ?_, fun _ => ⟨hres, by rw [hres]; simp⟩⟩
    rintro ⟨c, hc, hcp⟩
    exact absurd hcp (hne c hc)
  · have hc' : c.projectName = f.projectName := by simpa using hc
    have hpre' : ∀ d ∈ pre, d.projectName ≠ f.projectName := by
      intro x hx; simpa using hpre x hx
    have hres := onFixStarted_present s f pre c post hxs hpre' hc'
    refine ⟨by rw [hres, hxs]; simp [List.filter_append, List.filter_cons, hc'],
      fun _ => ⟨pre, c, post, hxs, hpre', hc', hres, by rw [hres, hxs]; simp⟩, ?_⟩
    intro hne
    exact absurd hc' (hne c (by rw [hxs]; simp))

/-! ## Properties of ServerOverviewTable.cpp -/

theorem toString_natCast (n : Nat) : toString ((n : Nat) : Int) = toString n := rfl

theorem toInt32_of_fits (x : Int) (h : -2147483648 ≤ x ∧ x < 2147483648) : toInt32 x = x := by
  unfold toInt32
  omega

theorem tdiv_of_nonneg (x : Int) (k : Nat) (h : 0 ≤ x) :
    Int.tdiv x (k : Int) = ((x.natAbs / k : Nat) : Int) := by
  obtain ⟨n, rfl⟩ := Int.eq_ofNat_of_zero_le h
  rfl

theorem tdiv_of_neg (x : Int) (k : Nat) (h : x < 0) :
    Int.tdiv x (k : Int) = -((x.natAbs / k : Nat) : Int) := by
  obtain ⟨n, rfl⟩ := Int.eq_negSucc_of_lt_zero h
  rfl

theorem secs_of_neg (ms : Int) (hneg : ms < 0) (hfit : -2147483648000 ≤ ms) :
    toInt32 (Int.tdiv ms 1000) = -((ms.natAbs / 1000 : Nat) : Int) := by
  rw [show (1000 : Int) = ((1000 : Nat) : Int) from rfl, tdiv_of_neg _ _ hneg, toInt32_of_fits]
  omega

theorem secs_of_nonneg (ms : Int) (hpos : 0 ≤ ms) (hfit : ms < 2147483648000) :
    toInt32 (Int.tdiv ms 1000) = ((ms.natAbs / 1000 : Nat) : Int) := by
  rw [show (1000 : Int) = ((1000 : Nat) : Int) from rfl, tdiv_of_nonneg _ _ hpos, toInt32_of_fits]
  omega

theorem tdiv_sixty_neg (n : Nat) : Int.tdiv (-(n : Int)) 60 = -((n / 60 : Nat) : Int) := by
  rw [Int.neg_tdiv]
  rfl

theorem tdiv_sixty_nonneg (n : Nat) : Int.tdiv (n : Int) 60 = ((n / 60 : Nat) : Int) := rfl

theorem remainingTimeText_eq (info : ProjectInformation) (hb : info.isBuilding = true)
    (hfit : -2147483648000 ≤ info.estimatedRemainingTime ∧
      info.estimatedRemainingTime < 2147483648000) :
    remainingTimeText info =
      if info.estimatedRemainingTime ≤ -1000 then
        if info.estimatedRemainingTime.natAbs < 60000 then
          "Taking " ++ toString (info.estimatedRemainingTime.natAbs / 1000) ++ " second(s) longer"
        else
          "Taking " ++ toString (info.estimatedRemainingTime.natAbs / 60000) ++ " minute(s) longer"
      else
        if info.estimatedRemainingTime.natAbs < 60000 then
          toString (info.estimatedRemainingTime.natAbs / 1000) ++ " second(s)"
        else
          toString (info.estimatedRemainingTime.natAbs / 60000) ++ " minute(s)" := by
  have hunit1 : " " ++ "second(s)" ++ " longer" = " second(s) longer" := by decide
  have hunit2 : " " ++ "minute(s)" ++ " longer" = " minute(s) longer" := by decide
  have hunit3 : " " ++ "second(s)" = " second(s)" := by decide
  have hunit4 : " " ++ "minute(s)" = " minute(s)" := by decide
  have hdiv : info.estimatedRemainingTime.natAbs / 1000 / 60
      = info.estimatedRemainingTime.natAbs / 60000 := by
    rw [Nat.div_div_eq_div_mul]
  generalize hm : info.estimatedRemainingTime.natAbs = m at *
  by_cases hneg : info.estimatedRemainingTime < 0
  · have hsecs := secs_of_neg _ hneg hfit.1
    rw [hm] at hsecs
    simp only [remainingTimeText, hb, if_true, hsecs]
    by_cases hsmall : m < 60000
    · have hc : (-((m / 1000 : Nat) : Int) < 60 ∧ -((m / 1000 : Nat) : Int) > -60) := by omega
      simp only [hc, and_self, if_true, hsmall]
      by_cases hk : info.estimatedRemainingTime ≤ -1000
      · have hv : -((m / 1000 : Nat) : Int) < 0 := by omega
        simp only [hv, hk, if_true, Int.natAbs_neg, Int.natAbs_ofNat, toString_natCast,
          String.append_assoc, hunit1]
      · have hz : m / 1000 = 0 := by omega
        simp only [hz, hk, if_false, Nat.cast_zero, neg_zero, lt_self_iff_false]
        rfl
    · have hc : ¬ (-((m / 1000 : Nat) : Int) < 60 ∧ -((m / 1000 : Nat) : Int) > -60) := by omega
      have hk : info.estimatedRemainingTime ≤ -1000 := by omega
      have hv : -((m / 60000 : Nat) : Int) < 0 := by omega
      simp only [hc, if_false, hsmall, hk, if_true, tdiv_sixty_neg, hdiv, hv, Int.natAbs_neg,
        Int.natAbs_ofNat, toString_natCast, String.append_assoc, hunit2]
  · have hsecs := secs_of_nonneg _ (by omega) hfit.2
    rw [hm] at hsecs
    have hk : ¬ info.estimatedRemainingTime ≤ -1000 := by omega
    simp only [remainingTimeText, hb, if_true, hsecs, hk, if_false]
    by_cases hsmall : m < 60000
    · have hc : (((m / 1000 : Nat) : Int) < 60 ∧ ((m / 1000 : Nat) : Int) > -60) := by omega
      have hv : ¬ ((m / 1000 : Nat) : Int) < 0 := by omega
      simp only [hc, and_self, if_true, hsmall, hv, if_false, toString_natCast,
        String.append_assoc, hunit3]
    · have hc : ¬ (((m / 1000 : Nat) : Int) < 60 ∧ ((m / 1000 : Nat) : Int) > -60) := by omega
      have hv : ¬ ((m / 60000 : Nat) : Int) < 0 := by omega
      simp only [hc, if_false, hsmall, tdiv_sixty_nonneg, hdiv, hv, toString_natCast,
        String.append_assoc, hunit4]

theorem foldl_pool_append (f : ProjectInformation → List QTableWidgetItem)
    (L : List ProjectInformation) (acc : List QTableWidgetItem) :
    L.foldl (fun pool info => pool ++ f info) acc
      = acc ++ L.foldl (fun pool info => pool ++ f info) [] := by
  induction L generalizing acc with
  | nil => simp
  | cons x L ih =>
    rw [List.foldl_cons, List.foldl_cons, ih (acc ++ f x), ih ([] ++ f x)]
    simp

theorem pool_get (f : ProjectInformation → List QTableWidgetItem)
    (hf : ∀ info, (f info).length = 7) (L : List ProjectInformation) (row : Nat)
    (info : ProjectInformation) (hrow : L[row]? = some info) (column : Nat)
    (hcol : column < 7) :
    (L.foldl (fun pool info => pool ++ f info) [])[row * 7 + column]?
      = (f info)[column]? := by
  induction L generalizing row with
  | nil => simp at hrow
  | cons x L ih =>
    rw [List.foldl_cons, foldl_pool_append]
    cases row with
    | zero =>
      simp only [List.getElem?_cons_zero, Option.some.injEq] at hrow
      subst hrow
      simp only [List.nil_append, Nat.zero_mul, Nat.zero_add]
      rw [List.getElem?_append_left (by rw [hf]; exact hcol)]
    | succ row =>
      simp only [List.getElem?_cons_succ] at hrow
      simp only [List.nil_append]
      rw [List.getElem?_append_right (by rw [hf]; omega), hf,
        show (row + 1) * 7 + column - 7 = row * 7 + column by omega]
      exact ih row hrow

theorem itemsOf_length (t : ServerOverviewTable) (q : Platform) (info : ProjectInformation) :
    (t.itemsOf q info).length = 7 := rfl

theorem item_eq (t : ServerOverviewTable) (q : Platform) (L : List ProjectInformation)
    (row : Nat) (info : ProjectInformation) (hrow : L[row]? = some info) (column : Nat)
    (hcol : column < 7) :
    (t.setProjectInformation q L).item row column
      = (t.itemsOf q info)[column]?.map fun item => { item with toolTip := item.text } := by
  have hlt : row < L.length := by
    rcases Nat.lt_or_ge row L.length with h | h
    · exact h
    · rw [List.getElem?_eq_none h] at hrow
      cases hrow
  have hpool := pool_get (t.itemsOf q) (itemsOf_length t q) L row info hrow column hcol
  have hcol' : column < headerLabels.length := hcol
  simp only [ServerOverviewTable.item, ServerOverviewTable.setProjectInformation]
  rw [List.getElem?_map, List.getElem?_range hlt]
  simp only [Option.map_some']
  rw [List.getElem?_map, List.getElem?_range hcol']
  simp only [Option.map_some', Option.join]
  rw [show headerLabels.length = 7 from rfl, hpool]
  rfl

theorem taking_ne (rest : String) : "0 second(s)" ≠ "Taking " ++ rest := by
  intro h
  have h2 := congrArg String.data h
  rw [String.data_append] at h2
  exact absurd h2 (by simp [String.data])

/-- C9, as the code has it. The Remaining Time cell of the row of a snapshot
whose remaining time in whole seconds fits a `qint32`: `-` when the project is
not building; otherwise, with N the magnitude of the remaining time in whole
seconds when it is under 60 seconds, in whole minutes otherwise, the cell is
`Taking N second(s) longer` or `Taking N minute(s) longer` when the overrun is
of a whole second at least, and `N second(s)` or `N minute(s)` in every other
case, overruns under a second among them. -/
theorem remainingTime_cell (t : ServerOverviewTable) (q : Platform)
    (L : List ProjectInformation) (row : Nat) (info : ProjectInformation)
    (hrow : L[row]? = some info)
    (hfit : -2147483648000 ≤ info.estimatedRemainingTime ∧
      info.estimatedRemainingTime < 2147483648000) :
    ((t.setProjectInformation q L).item row 2).map QTableWidgetItem.text = some
      (if info.isBuilding then
        if info.estimatedRemainingTime ≤ -1000 then
          if info.estimatedRemainingTime.natAbs < 60000 then
            "Taking " ++ toString (info.estimatedRemainingTime.natAbs / 1000) ++ " second(s) longer"
          else
            "Taking " ++ toString (info.estimatedRemainingTime.natAbs / 60000)
              ++ " minute(s) longer"
        else
          if info.estimatedRemainingTime.natAbs < 60000 then
            toString (info.estimatedRemainingTime.natAbs / 1000) ++ " second(s)"
          else
            toString (info.estimatedRemainingTime.natAbs / 60000) ++ " minute(s)"
      else "-") := by
  rw [item_eq t q L row info hrow 2 (by decide)]
  have hcell : (t.itemsOf q info)[2]? = some (QTableWidgetItem.ofText (remainingTimeText info)) :=
    rfl
  rw [hcell]
  simp only [Option.map_some', QTableWidgetItem.ofText, Option.some.injEq]
  cases hb : info.isBuilding with
  | false => simp [remainingTimeText, hb]
  | true => simpa using remainingTimeText_eq info hb hfit

/-- Witness of C9: a build overrunning its estimate by 61 seconds is shown as
taking one minute longer. -/
theorem remainingTime_cell_witness :
    ((ServerOverviewTable.init.setProjectInformation ⟨fun _ => "", fun _ => false, fun _ => ""⟩
        [⟨"A", .failure, true, 3, -61000, 0, -1, "", []⟩]).item 0 2).map QTableWidgetItem.text
      = some "Taking 1 minute(s) longer" :=
  remainingTime_cell ServerOverviewTable.init ⟨fun _ => "", fun _ => false, fun _ => ""⟩
    [⟨"A", .failure, true, 3, -61000, 0, -1, "", []⟩] 0
    ⟨"A", .failure, true, 3, -61000, 0, -1, "", []⟩ rfl (by decide)

/-- Counterexample to C9 as stated: a building project whose remaining time is
-500 ms, an overrun of half a second, is shown as `0 second(s)`, which is
neither `Taking N second(s) longer` nor `Taking N minute(s) longer` for any N. -/
theorem remainingTime_subsecond_overrun :
    (⟨"A", .failure, true, 3, -500, 0, -1, "", []⟩ : ProjectInformation).isBuilding = true ∧
    (⟨"A", .failure, true, 3, -500, 0, -1, "", []⟩ : ProjectInformation).estimatedRemainingTime
      < 0 ∧
    (∀ (t : ServerOverviewTable) (q : Platform),
      ((t.setProjectInformation q [⟨"A", .failure, true, 3, -500, 0, -1, "", []⟩]).item 0 2).map
        QTableWidgetItem.text = some "0 second(s)") ∧
    ¬ ∃ N : Nat,
      remainingTimeText ⟨"A", .failure, true, 3, -500, 0, -1, "", []⟩
          = "Taking " ++ toString N ++ " second(s) longer" ∨
      remainingTimeText ⟨"A", .failure, true, 3, -500, 0, -1, "", []⟩
          = "Taking " ++ toString N ++ " minute(s) longer" := by
  have htext : remainingTimeText ⟨"A", .failure, true, 3, -500, 0, -1, "", []⟩ = "0 second(s)" := by
    decide
  refine ⟨rfl, by decide, ?_, ?_⟩
  · intro t q
    rw [item_eq t q _ 0 ⟨"A", .failure, true, 3, -500, 0, -1, "", []⟩ rfl 2 (by decide)]
    have hcell : (t.itemsOf q ⟨"A", .failure, true, 3, -500, 0, -1, "", []⟩)[2]?
        = some (QTableWidgetItem.ofText
            (remainingTimeText ⟨"A", .failure, true, 3, -500, 0, -1, "", []⟩)) := rfl
    rw [hcell, htext]
    rfl
  · rintro ⟨N, h | h⟩
    · rw [htext, String.append_assoc] at h
      exact taking_ne _ h
    · rw [htext, String.append_assoc] at h
      exact taking_ne _ h

theorem pool_length (f : ProjectInformation → List QTableWidgetItem)
    (hf : ∀ info, (f info).length = 7) (L : List ProjectInformation) :
    (L.foldl (fun pool info => pool ++ f info) []).length = 7 * L.length := by
  induction L with
  | nil => rfl
  | cons x L ih =>
    rw [List.foldl_cons, foldl_pool_append, List.length_append, ih, List.nil_append, hf,
      List.length_cons]
    omega

theorem setProjectInformation_itemPool (t : ServerOverviewTable) (q : Platform)
    (L : List ProjectInformation) :
    (t.setProjectInformation q L).itemPool
      = L.foldl (fun pool info => pool ++ t.itemsOf q info) [] := rfl

/-- C11. Table layout is in bounds and keyed by project name: for a list of
`n` snapshots `setProjectInformation` leaves `7 * n` items in `itemPool`,
seven per snapshot whichever branches the formatting takes; every index
`row * 7 + column` with `row < n` and `column < 7` lies within the pool, and is
the value the `qint32` holding it has whenever `7 * n` fits a `qint32`; every
such cell of the grid holds an item; the item at `(row, 1)`, which
`getProjectName row` reads, carries the project name of the snapshot at `row`;
and `getProjectName (-1)` is the empty string. -/
theorem setProjectInformation_layout (t : ServerOverviewTable) (q : Platform)
    (L : List ProjectInformation) :
    (∀ info, (t.itemsOf q info).length = 7) ∧
    (t.setProjectInformation q L).itemPool.length = 7 * L.length ∧
    (∀ row column, row < L.length → column < 7 →
      row * headerLabels.length + column < (t.setProjectInformation q L).itemPool.length ∧
      (7 * L.length ≤ 2147483647 →
        toInt32 ((row : Int) * (headerLabels.length : Int) + (column : Int))
          = ((row * 7 + column : Nat) : Int)) ∧
      ((t.setProjectInformation q L).item row column).isSome = true) ∧
    (∀ row info, L[row]? = some info →
      ((t.setProjectInformation q L).item row 1).map QTableWidgetItem.text
        = some info.projectName ∧
      (t.setProjectInformation q L).getProjectName (row : Int) = some info.projectName) ∧
    t.getProjectName (-1) = some "" ∧
    (t.setProjectInformation q L).getProjectName (-1) = some "" := by
  have hlen : (t.setProjectInformation q L).itemPool.length = 7 * L.length := by
    rw [setProjectInformation_itemPool]
    exact pool_length _ (itemsOf_length t q) L
  have hname : ∀ row info, L[row]? = some info →
      ((t.setProjectInformation q L).item row 1).map QTableWidgetItem.text
        = some info.projectName := by
    intro row info hrow
    rw [item_eq t q L row info hrow 1 (by decide)]
    rfl
  refine ⟨itemsOf_length t q, hlen, ?_, ?_, rfl, rfl⟩
  · intro row column hrow hcol
    refine ⟨?_, ?_, ?_⟩
    · rw [hlen, show headerLabels.length = 7 from rfl]
      omega
    · intro hfit
      rw [show ((headerLabels.length : Nat) : Int) = 7 from rfl]
      unfold toInt32
      omega
    · have hget : L[row]? = some (L[row]) := List.getElem?_eq_getElem hrow
      rw [item_eq t q L row _ hget column hcol]
      have hsome : column < (t.itemsOf q L[row]).length := by
        rw [itemsOf_length]; exact hcol
      rw [List.getElem?_eq_getElem hsome]
      rfl
  · intro row info hrow
    refine ⟨hname row info hrow, ?_⟩
    have h1 : ¬ ((row : Int) = -1) := by omega
    have h2 : ¬ ((row : Int) < 0) := by omega
    simp only [ServerOverviewTable.getProjectName, h1, h2, if_false, Int.toNat_ofNat]
    exact hname row info hrow

/-- Witness of C11: two snapshots that take different branches of the
formatting, one failed and building with no successful build so far, one
succeeded and idle; the pool holds fourteen items and `getProjectName 1` is
the name of the second snapshot. -/
theorem setProjectInformation_layout_witness :
    ((ServerOverviewTable.init.setIcons (some "ok") none (some "bad") none).setProjectInformation
        ⟨fun _ => "", fun s => decide (s = .failure), fun _ => "then"⟩
        [⟨"A", .failure, true, 3, -61000, 120000, -1, "bob", ["x", "y", "z"]⟩,
         ⟨"B", .success, false, 9, 0, 0, 1000, "", []⟩]).itemPool.length = 7 * 2 ∧
    ((ServerOverviewTable.init.setIcons (some "ok") none (some "bad") none).setProjectInformation
        ⟨fun _ => "", fun s => decide (s = .failure), fun _ => "then"⟩
        [⟨"A", .failure, true, 3, -61000, 120000, -1, "bob", ["x", "y", "z"]⟩,
         ⟨"B", .success, false, 9, 0, 0, 1000, "", []⟩]).getProjectName ((1 : Nat) : Int)
      = some "B" :=
  ⟨(setProjectInformation_layout (ServerOverviewTable.init.setIcons (some "ok") none (some "bad") none)
      ⟨fun _ => "", fun s => decide (s = .failure), fun _ => "then"⟩
      [⟨"A", .failure, true, 3, -61000, 120000, -1, "bob", ["x", "y", "z"]⟩,
       ⟨"B", .success, false, 9, 0, 0, 1000, "", []⟩]).2.1,
   ((setProjectInformation_layout (ServerOverviewTable.init.setIcons (some "ok") none (some "bad") none)
      ⟨fun _ => "", fun s => decide (s = .failure), fun _ => "then"⟩
      [⟨"A", .failure, true, 3, -61000, 120000, -1, "bob", ["x", "y", "z"]⟩,
       ⟨"B", .success, false, 9, 0, 0, 1000, "", []⟩]).2.2.2.1 1
      ⟨"B", .success, false, 9, 0, 0, 1000, "", []⟩ rfl).2⟩

/-! ## Properties of the aggregation cycle -/

end BuildMonitor
